import Mathlib

/-!
# Verification of the rpmrevmatch segmentation and analysis scripts

Shallow embedding of `src/graph.py` (config loading, the RPM / RevMatch
segmentation loop, legend construction) and `src/innefficiency.py`
(per-gear ratio analysis).  Numeric telemetry fields (time, rpm, revmatch,
mph) are modelled as exact rationals; gear numbers as integers.
-/

namespace RpmRevMatch

/-- One telemetry row of `output.csv`: columns `Time`, `RPM`, `CurrentGear`,
`RevMatch` (graph.py does not read `MPH`). -/
structure Sample where
  time : ℚ
  rpm : ℚ
  gear : ℤ
  revmatch : ℚ
  deriving Repr, DecidableEq

/-- An entry of `rpm_segments`: the dict
`{'time': [...], 'rpm': [...], 'gear': g}` built in graph.py. -/
structure RpmSeg where
  time : List ℚ
  rpm : List ℚ
  gear : ℤ
  deriving Repr, DecidableEq

/-- An entry of `revmatch_segments`: the dict
`{'time': [...], 'revmatch': [...], 'gear': g}` built in graph.py. -/
structure RevSeg where
  time : List ℚ
  revmatch : List ℚ
  gear : ℤ
  deriving Repr, DecidableEq

/-- The mutable state of graph.py's main loop: the two segment lists, plus a
ghost counter `elseHits` recording how many times the final `else` branch of
the RevMatch handling (the "different gear - start new segment" branch at the
end of the loop body) has executed.  The counter does not influence the
segment lists. -/
structure SegState where
  rpmSegs : List RpmSeg
  revSegs : List RevSeg
  elseHits : ℕ
  deriving Repr, DecidableEq

/-- `rpm_segments.append({'time': [t], 'rpm': [r], 'gear': g})` with the
current sample's fields. -/
def newRpmSeg (s : Sample) : RpmSeg :=
  { time := [s.time], rpm := [s.rpm], gear := s.gear }

/-- `revmatch_segments.append({'time': [t], 'revmatch': [rv], 'gear': g - 1})`
with the current sample's fields. -/
def newRevSeg (s : Sample) : RevSeg :=
  { time := [s.time], revmatch := [s.revmatch], gear := s.gear - 1 }

/-- `rpm_segments[-1]['time'].append(t)` and
`rpm_segments[-1]['rpm'].append(r)`: extend the last segment in place.
On the empty list this does nothing (graph.py never reaches that case). -/
def snocRpmPoint (t r : ℚ) : List RpmSeg → List RpmSeg
  | [] => []
  | [sg] => [{ sg with time := sg.time ++ [t], rpm := sg.rpm ++ [r] }]
  | sg :: rest => sg :: snocRpmPoint t r rest

/-- `revmatch_segments[-1]['time'].append(t)` and
`revmatch_segments[-1]['revmatch'].append(rv)`. -/
def snocRevPoint (t rv : ℚ) : List RevSeg → List RevSeg
  | [] => []
  | [sg] => [{ sg with time := sg.time ++ [t], revmatch := sg.revmatch ++ [rv] }]
  | sg :: rest => sg :: snocRevPoint t rv rest

/-- The validity predicate of the RevMatch handling:
`current_gear > 1 and current_revmatch != -1`. -/
def ValidRev (s : Sample) : Prop :=
  s.gear > 1 ∧ s.revmatch ≠ -1

instance : DecidablePred ValidRev := fun s =>
  inferInstanceAs (Decidable (s.gear > 1 ∧ s.revmatch ≠ -1))

/-- The RPM half of the loop body (graph.py lines 60-80).  `prev` is
`df.iloc[i-1]` when `i > 0` and `none` when `i == 0`. -/
def stepRpm (prev : Option Sample) (s : Sample) (segs : List RpmSeg) :
    List RpmSeg :=
  match prev with
  | none => segs ++ [newRpmSeg s]
  | some p =>
    if s.gear = p.gear then snocRpmPoint s.time s.rpm segs
    else segs ++ [newRpmSeg s]

/-- The RevMatch half of the loop body (graph.py lines 83-103).  Returns the
updated `revmatch_segments` and whether the final `else` branch ("Different
gear - start new segment") executed.  The opening condition
`not revmatch_segments or (i > 0 and (prev_gear != gear or prev_revmatch == -1))`
is split on `prev` (`i > 0` iff `prev = some p`). -/
def stepRev (prev : Option Sample) (s : Sample) (segs : List RevSeg) :
    List RevSeg × Bool :=
  if ValidRev s then
    match prev with
    | none =>
      if segs = [] then (segs ++ [newRevSeg s], false)
      else if segs.getLast?.map RevSeg.gear = some (s.gear - 1) then
        (snocRevPoint s.time s.revmatch segs, false)
      else (segs ++ [newRevSeg s], true)
    | some p =>
      if segs = [] ∨ p.gear ≠ s.gear ∨ p.revmatch = -1 then
        (segs ++ [newRevSeg s], false)
      else if segs.getLast?.map RevSeg.gear = some (s.gear - 1) then
        (snocRevPoint s.time s.revmatch segs, false)
      else (segs ++ [newRevSeg s], true)
  else (segs, false)

/-- One full iteration of `for i in range(len(df))` in graph.py: the RPM
handling followed by the RevMatch handling (the two halves read disjoint
state). -/
def step (prev : Option Sample) (s : Sample) (st : SegState) : SegState :=
  { rpmSegs := stepRpm prev s st.rpmSegs
    revSegs := (stepRev prev s st.revSegs).1
    elseHits := st.elseHits + (if (stepRev prev s st.revSegs).2 then 1 else 0) }

/-- The loop over the sample sequence, threading the previous sample. -/
def segLoop : Option Sample → List Sample → SegState → SegState
  | _, [], st => st
  | prev, s :: rest, st => segLoop (some s) rest (step prev s st)

/-- Running graph.py's segmentation loop from the initial state
(`rpm_segments = []`, `revmatch_segments = []`). -/
def segmentSamples (samples : List Sample) : SegState :=
  segLoop none samples { rpmSegs := [], revSegs := [], elseHits := 0 }

/-- Modelled from the spec (claim C3 / spec section 4.1 rules a-b): a new
RevMatch segment keyed `gear - 1` is opened exactly when no RevMatch segment
exists yet, or the previous sample's gear differs from the current gear, or
the previous sample's revmatch equals `-1`; otherwise the point is appended
to the last open segment.  Used only to compare against `stepRev`. -/
def specRevStep (prev : Option Sample) (s : Sample) (segs : List RevSeg) :
    List RevSeg :=
  if ValidRev s then
    match prev with
    | none =>
      if segs = [] then segs ++ [newRevSeg s]
      else snocRevPoint s.time s.revmatch segs
    | some p =>
      if segs = [] ∨ p.gear ≠ s.gear ∨ p.revmatch = -1 then segs ++ [newRevSeg s]
      else snocRevPoint s.time s.revmatch segs
  else segs

/-- Loop for `specRevStep`, mirroring `segLoop` on the RevMatch list only. -/
def specRevLoop : Option Sample → List Sample → List RevSeg → List RevSeg
  | _, [], segs => segs
  | prev, s :: rest, segs => specRevLoop (some s) rest (specRevStep prev s segs)

/-- The RevMatch segment list as the spec's words describe it. -/
def revSegmentsSpec (samples : List Sample) : List RevSeg :=
  specRevLoop none samples []

/-- The `(time, rpm)` point list of one RPM segment (the two parallel arrays
of the dict, zipped). -/
def RpmSeg.points (sg : RpmSeg) : List (ℚ × ℚ) :=
  sg.time.zip sg.rpm

/-- Concatenation of the point lists of all RPM segments, in segment order. -/
def flatRpm (segs : List RpmSeg) : List (ℚ × ℚ) :=
  segs.foldr (fun sg acc => sg.points ++ acc) []

/-- The points of one RevMatch segment, each tagged with the segment's key. -/
def RevSeg.keyedPoints (sg : RevSeg) : List (ℚ × ℚ × ℤ) :=
  (sg.time.zip sg.revmatch).map (fun p => (p.1, p.2, sg.gear))

/-- Concatenation of the key-tagged point lists of all RevMatch segments, in
segment order. -/
def flatRev (segs : List RevSeg) : List (ℚ × ℚ × ℤ) :=
  segs.foldr (fun sg acc => sg.keyedPoints ++ acc) []

/-- Number of gear-change events: indices `i > 0` with
`gear[i] != gear[i-1]`. -/
def gearChanges : List Sample → ℕ
  | [] => 0
  | [_] => 0
  | a :: b :: rest => (if b.gear ≠ a.gear then 1 else 0) + gearChanges (b :: rest)

/-- The keys of the RPM segments produced after a segment keyed `k` is open:
one new key per adjacent gear change. -/
def newKeys (k : ℤ) : List ℤ → List ℤ
  | [] => []
  | g :: gs => if g = k then newKeys k gs else g :: newKeys g gs

/-- Collapse adjacent duplicates of a gear list: the expected RPM-segment key
sequence. -/
def collapseAdj : List ℤ → List ℤ
  | [] => []
  | g :: gs => g :: newKeys g gs

/-- `sorted(set(rpm keys + revmatch keys))` of graph.py line 125. -/
def allGears (st : SegState) : List ℤ :=
  List.insertionSort (· ≤ ·)
    ((st.rpmSegs.map RpmSeg.gear ++ st.revSegs.map RevSeg.gear).dedup)

/-- The legend entries of graph.py lines 127-143: per gear of `allGears`, the
label `f'Gear {gear}'` and whether the entry bundles a dashed RevMatch line
(`gear in [s['gear'] for s in revmatch_segments]`). -/
def legendElements (st : SegState) : List (String × Bool) :=
  (allGears st).map
    (fun g => ("Gear " ++ toString g, (st.revSegs.map RevSeg.gear).contains g))

/-! ### Basic lemmas about the segment-list helpers -/

/-- Length agreement of the two parallel arrays of every RPM segment. -/
def RpmWF (segs : List RpmSeg) : Prop :=
  ∀ sg ∈ segs, sg.time.length = sg.rpm.length

/-- Length agreement of the two parallel arrays of every RevMatch segment. -/
def RevWF (segs : List RevSeg) : Prop :=
  ∀ sg ∈ segs, sg.time.length = sg.revmatch.length

theorem flatRpm_nil : flatRpm [] = [] := rfl

theorem flatRpm_cons (sg : RpmSeg) (rest : List RpmSeg) :
    flatRpm (sg :: rest) = sg.points ++ flatRpm rest := rfl

theorem flatRpm_append (a b : List RpmSeg) :
    flatRpm (a ++ b) = flatRpm a ++ flatRpm b := by
  induction a with
  | nil => simp [flatRpm]
  | cons sg rest ih => simp [flatRpm_cons, ih]

theorem points_newRpmSeg (s : Sample) :
    (newRpmSeg s).points = [(s.time, s.rpm)] := rfl

theorem flatRev_nil : flatRev [] = [] := rfl

theorem flatRev_cons (sg : RevSeg) (rest : List RevSeg) :
    flatRev (sg :: rest) = sg.keyedPoints ++ flatRev rest := rfl

theorem flatRev_append (a b : List RevSeg) :
    flatRev (a ++ b) = flatRev a ++ flatRev b := by
  induction a with
  | nil => simp [flatRev]
  | cons sg rest ih => simp [flatRev_cons, ih]

theorem keyedPoints_newRevSeg (s : Sample) :
    (newRevSeg s).keyedPoints = [(s.time, s.revmatch, s.gear - 1)] := rfl

theorem snocRpmPoint_ne_nil (t r : ℚ) {segs : List RpmSeg} (h : segs ≠ []) :
    snocRpmPoint t r segs ≠ [] := by
  match segs with
  | [] => exact absurd rfl h
  | [sg] => simp [snocRpmPoint]
  | sg :: b :: rest => simp [snocRpmPoint]

theorem snocRpmPoint_wf (t r : ℚ) {segs : List RpmSeg} (h : RpmWF segs) :
    RpmWF (snocRpmPoint t r segs) := by
  induction segs with
  | nil => exact h
  | cons sg rest ih =>
    cases rest with
    | nil =>
      intro x hx
      simp [snocRpmPoint] at hx
      subst hx
      have := h sg (by simp)
      simp [this]
    | cons b rest2 =>
      intro x hx
      rw [show snocRpmPoint t r (sg :: b :: rest2)
            = sg :: snocRpmPoint t r (b :: rest2) from rfl] at hx
      rcases List.mem_cons.mp hx with hx | hx
      · exact hx ▸ h sg (by simp)
      · exact ih (fun y hy => h y (List.mem_cons_of_mem sg hy)) x hx

theorem snocRpmPoint_map_gear (t r : ℚ) (segs : List RpmSeg) :
    (snocRpmPoint t r segs).map RpmSeg.gear = segs.map RpmSeg.gear := by
  induction segs with
  | nil => rfl
  | cons sg rest ih =>
    cases rest with
    | nil => simp [snocRpmPoint]
    | cons b rest2 =>
      rw [show snocRpmPoint t r (sg :: b :: rest2)
            = sg :: snocRpmPoint t r (b :: rest2) from rfl]
      simpa using ih

theorem flatRpm_snocRpmPoint (t r : ℚ) {segs : List RpmSeg}
    (hne : segs ≠ []) (hwf : RpmWF segs) :
    flatRpm (snocRpmPoint t r segs) = flatRpm segs ++ [(t, r)] := by
  induction segs with
  | nil => exact absurd rfl hne
  | cons sg rest ih =>
    cases rest with
    | nil =>
      have hlen := hwf sg (by simp)
      simp only [snocRpmPoint, flatRpm_cons, flatRpm_nil, List.append_nil]
      simp [RpmSeg.points, List.zip_append hlen]
    | cons b rest2 =>
      rw [show snocRpmPoint t r (sg :: b :: rest2)
            = sg :: snocRpmPoint t r (b :: rest2) from rfl]
      rw [flatRpm_cons, flatRpm_cons,
        ih (by simp) (fun y hy => hwf y (List.mem_cons_of_mem sg hy))]
      simp

theorem snocRevPoint_ne_nil (t rv : ℚ) {segs : List RevSeg} (h : segs ≠ []) :
    snocRevPoint t rv segs ≠ [] := by
  match segs with
  | [] => exact absurd rfl h
  | [sg] => simp [snocRevPoint]
  | sg :: b :: rest => simp [snocRevPoint]

theorem snocRevPoint_wf (t rv : ℚ) {segs : List RevSeg} (h : RevWF segs) :
    RevWF (snocRevPoint t rv segs) := by
  induction segs with
  | nil => exact h
  | cons sg rest ih =>
    cases rest with
    | nil =>
      intro x hx
      simp [snocRevPoint] at hx
      subst hx
      have := h sg (by simp)
      simp [this]
    | cons b rest2 =>
      intro x hx
      rw [show snocRevPoint t rv (sg :: b :: rest2)
            = sg :: snocRevPoint t rv (b :: rest2) from rfl] at hx
      rcases List.mem_cons.mp hx with hx | hx
      · exact hx ▸ h sg (by simp)
      · exact ih (fun y hy => h y (List.mem_cons_of_mem sg hy)) x hx

theorem snocRevPoint_getLast_gear (t rv : ℚ) {segs : List RevSeg}
    (h : segs ≠ []) :
    (snocRevPoint t rv segs).getLast?.map RevSeg.gear
      = segs.getLast?.map RevSeg.gear := by
  induction segs with
  | nil => exact absurd rfl h
  | cons sg rest ih =>
    cases rest with
    | nil => simp [snocRevPoint]
    | cons b rest2 =>
      rw [show snocRevPoint t rv (sg :: b :: rest2)
            = sg :: snocRevPoint t rv (b :: rest2) from rfl]
      have hne : snocRevPoint t rv (b :: rest2) ≠ [] :=
        snocRevPoint_ne_nil t rv (by simp)
      rcases List.exists_cons_of_ne_nil hne with ⟨y, ys, hy⟩
      rw [hy, List.getLast?_cons_cons, ← hy, ih (by simp),
        List.getLast?_cons_cons]

theorem flatRev_snocRevPoint (t rv : ℚ) {segs : List RevSeg} {g : ℤ}
    (hwf : RevWF segs)
    (hlast : segs.getLast?.map RevSeg.gear = some g) :
    flatRev (snocRevPoint t rv segs) = flatRev segs ++ [(t, rv, g)] := by
  induction segs with
  | nil => simp at hlast
  | cons sg rest ih =>
    cases rest with
    | nil =>
      have hlen := hwf sg (by simp)
      simp only [List.getLast?_singleton, Option.map_some] at hlast
      have hg : sg.gear = g := by injection hlast
      simp only [snocRevPoint, flatRev_cons, flatRev_nil, List.append_nil]
      simp [RevSeg.keyedPoints, List.zip_append hlen, hg]
    | cons b rest2 =>
      rw [show snocRevPoint t rv (sg :: b :: rest2)
            = sg :: snocRevPoint t rv (b :: rest2) from rfl]
      rw [List.getLast?_cons_cons] at hlast
      rw [flatRev_cons, flatRev_cons,
        ih (fun y hy => hwf y (List.mem_cons_of_mem sg hy)) hlast]
      simp

/-! ### The loop invariant -/

/-- Invariant of graph.py's main loop, relating the previous sample (`none`
before the first iteration) to the accumulated state. -/
structure Inv (prev : Option Sample) (st : SegState) : Prop where
  rpmWF : RpmWF st.rpmSegs
  revWF : RevWF st.revSegs
  rpm_nil : prev = none → st.rpmSegs = []
  rev_nil : prev = none → st.revSegs = []
  rpm_ne : ∀ p, prev = some p → st.rpmSegs ≠ []
  rev_last : ∀ p, prev = some p → ValidRev p →
    st.revSegs.getLast?.map RevSeg.gear = some (p.gear - 1)

theorem inv_init : Inv none { rpmSegs := [], revSegs := [], elseHits := 0 } :=
  ⟨fun _ h => absurd h (List.not_mem_nil _), fun _ h => absurd h (List.not_mem_nil _),
   fun _ => rfl, fun _ => rfl, fun _ h => by simp at h, fun _ h => by simp at h⟩

/-- Exhaustive description of what the RevMatch half does to the segment
list: unchanged on an invalid sample; otherwise either a fresh segment keyed
`gear - 1` is appended, or (only when the last segment already has exactly
that key) the point is appended to the last segment. -/
theorem stepRev_cases (prev : Option Sample) (s : Sample) (segs : List RevSeg) :
    (¬ ValidRev s ∧ stepRev prev s segs = (segs, false)) ∨
    (ValidRev s ∧ (stepRev prev s segs).1 = segs ++ [newRevSeg s]) ∨
    (ValidRev s ∧ segs ≠ [] ∧ segs.getLast?.map RevSeg.gear = some (s.gear - 1) ∧
      stepRev prev s segs = (snocRevPoint s.time s.revmatch segs, false)) := by
  by_cases hv : ValidRev s
  · cases prev with
    | none =>
      by_cases h0 : segs = []
      · exact Or.inr (Or.inl ⟨hv, by simp [stepRev, hv, h0]⟩)
      · by_cases hl : segs.getLast?.map RevSeg.gear = some (s.gear - 1)
        · exact Or.inr (Or.inr ⟨hv, h0, hl, by simp [stepRev, hv, h0, hl]⟩)
        · exact Or.inr (Or.inl ⟨hv, by simp [stepRev, hv, h0, hl]⟩)
    | some p =>
      by_cases hc : segs = [] ∨ p.gear ≠ s.gear ∨ p.revmatch = -1
      · exact Or.inr (Or.inl ⟨hv, by simp only [stepRev, if_pos hv, if_pos hc]⟩)
      · by_cases hl : segs.getLast?.map RevSeg.gear = some (s.gear - 1)
        · refine Or.inr (Or.inr ⟨hv, ?_, hl,
            by simp only [stepRev, if_pos hv, if_neg hc, if_pos hl]⟩)
          intro h0
          exact hc (Or.inl h0)
        · exact Or.inr (Or.inl ⟨hv,
            by simp only [stepRev, if_pos hv, if_neg hc, if_neg hl]⟩)
  · exact Or.inl ⟨hv, by simp [stepRev, hv]⟩

/-- An invalid sample leaves the RevMatch list untouched. -/
theorem stepRev_invalid {s : Sample} (hv : ¬ ValidRev s)
    (prev : Option Sample) (segs : List RevSeg) :
    stepRev prev s segs = (segs, false) := by
  simp [stepRev, hv]

/-- Under the invariant, the defensive final `else` branch of the RevMatch
handling never fires. -/
theorem stepRev_no_else {prev : Option Sample} {st : SegState}
    (h : Inv prev st) (s : Sample) :
    (stepRev prev s st.revSegs).2 = false := by
  by_cases hv : ValidRev s
  · cases prev with
    | none =>
      have h0 := h.rev_nil rfl
      simp [stepRev, hv, h0]
    | some p =>
      by_cases hc : st.revSegs = [] ∨ p.gear ≠ s.gear ∨ p.revmatch = -1
      · simp only [stepRev, if_pos hv, if_pos hc]
      · push_neg at hc
        obtain ⟨h0, hg, hrm⟩ := hc
        have hpv : ValidRev p := ⟨hg ▸ hv.1, hrm⟩
        have hl := h.rev_last p rfl hpv
        rw [hg] at hl
        have hc' : ¬ (st.revSegs = [] ∨ p.gear ≠ s.gear ∨ p.revmatch = -1) := by
          push_neg
          exact ⟨h0, hg, hrm⟩
        simp only [stepRev, if_pos hv, if_neg hc', if_pos hl]
  · simp [stepRev, hv]

/-- Under the invariant, the source's RevMatch handling agrees with the
spec's description of it (rules a-b, no reachable rule c). -/
theorem stepRev_eq_spec {prev : Option Sample} {st : SegState}
    (h : Inv prev st) (s : Sample) :
    (stepRev prev s st.revSegs).1 = specRevStep prev s st.revSegs := by
  by_cases hv : ValidRev s
  · cases prev with
    | none =>
      have h0 := h.rev_nil rfl
      simp [stepRev, specRevStep, hv, h0]
    | some p =>
      by_cases hc : st.revSegs = [] ∨ p.gear ≠ s.gear ∨ p.revmatch = -1
      · simp only [stepRev, specRevStep, if_pos hv, if_pos hc]
      · push_neg at hc
        obtain ⟨h0, hg, hrm⟩ := hc
        have hpv : ValidRev p := ⟨hg ▸ hv.1, hrm⟩
        have hl := h.rev_last p rfl hpv
        rw [hg] at hl
        have hc' : ¬ (st.revSegs = [] ∨ p.gear ≠ s.gear ∨ p.revmatch = -1) := by
          push_neg
          exact ⟨h0, hg, hrm⟩
        simp only [stepRev, specRevStep, if_pos hv, if_neg hc', if_pos hl]
  · simp [stepRev, specRevStep, hv]

/-- The invariant is preserved by one loop iteration. -/
theorem inv_step {prev : Option Sample} {st : SegState}
    (h : Inv prev st) (s : Sample) : Inv (some s) (step prev s st) := by
  have hrpmWF : RpmWF (stepRpm prev s st.rpmSegs) := by
    cases prev with
    | none =>
      intro x hx
      rcases List.mem_append.mp hx with hx | hx
      · exact h.rpmWF x hx
      · simp at hx
        subst hx
        rfl
    | some p =>
      by_cases hg : s.gear = p.gear
      · simpa [stepRpm, hg] using snocRpmPoint_wf s.time s.rpm h.rpmWF
      · intro x hx
        simp only [stepRpm, if_neg hg] at hx
        rcases List.mem_append.mp hx with hx | hx
        · exact h.rpmWF x hx
        · simp at hx
          subst hx
          rfl
  have hrpm_ne : stepRpm prev s st.rpmSegs ≠ [] := by
    cases prev with
    | none => simp [stepRpm]
    | some p =>
      by_cases hg : s.gear = p.gear
      · simpa [stepRpm, hg] using
          snocRpmPoint_ne_nil s.time s.rpm (h.rpm_ne p rfl)
      · simp [stepRpm, hg]
  have hrevWF : RevWF (stepRev prev s st.revSegs).1 := by
    rcases stepRev_cases prev s st.revSegs with ⟨-, he⟩ | ⟨-, he⟩ | ⟨-, -, -, he⟩
    · rw [he]
      exact h.revWF
    · rw [he]
      intro x hx
      rcases List.mem_append.mp hx with hx | hx
      · exact h.revWF x hx
      · simp at hx
        subst hx
        rfl
    · rw [he]
      exact snocRevPoint_wf s.time s.revmatch h.revWF
  have hrev_last : ∀ p, some s = some p → ValidRev p →
      ((stepRev prev s st.revSegs).1.getLast?.map RevSeg.gear
        = some (p.gear - 1)) := by
    intro p hp hpv
    injection hp with hp
    subst hp
    rcases stepRev_cases prev s st.revSegs with ⟨hv, -⟩ | ⟨-, he⟩ | ⟨-, hne, hl, he⟩
    · exact absurd hpv hv
    · rw [he, List.getLast?_concat]
      rfl
    · rw [show (stepRev prev s st.revSegs).1
          = snocRevPoint s.time s.revmatch st.revSegs from by rw [he]]
      simpa [snocRevPoint_getLast_gear s.time s.revmatch hne] using hl
  exact ⟨hrpmWF, hrevWF, fun hc => by simp at hc, fun hc => by simp at hc,
    fun p hp => hrpm_ne, hrev_last⟩

/-! ### Loop-level lemmas -/

theorem step_flatRpm {prev : Option Sample} {st : SegState}
    (h : Inv prev st) (s : Sample) :
    flatRpm (step prev s st).rpmSegs = flatRpm st.rpmSegs ++ [(s.time, s.rpm)] := by
  show flatRpm (stepRpm prev s st.rpmSegs) = _
  cases prev with
  | none => simp [stepRpm, flatRpm_append, flatRpm_cons, flatRpm_nil, points_newRpmSeg]
  | some p =>
    by_cases hg : s.gear = p.gear
    · simp only [stepRpm, if_pos hg]
      exact flatRpm_snocRpmPoint s.time s.rpm (h.rpm_ne p rfl) h.rpmWF
    · simp [stepRpm, hg, flatRpm_append, flatRpm_cons, flatRpm_nil, points_newRpmSeg]

theorem step_flatRev {prev : Option Sample} {st : SegState}
    (h : Inv prev st) (s : Sample) :
    flatRev (step prev s st).revSegs
      = flatRev st.revSegs
        ++ (if ValidRev s then [(s.time, s.revmatch, s.gear - 1)] else []) := by
  show flatRev (stepRev prev s st.revSegs).1 = _
  rcases stepRev_cases prev s st.revSegs with ⟨hv, he⟩ | ⟨hv, he⟩ | ⟨hv, hne, hl, he⟩
  · rw [show (stepRev prev s st.revSegs).1 = st.revSegs from by rw [he], if_neg hv]
    simp
  · rw [he, if_pos hv, flatRev_append, flatRev_cons, keyedPoints_newRevSeg]
    rfl
  · rw [show (stepRev prev s st.revSegs).1
        = snocRevPoint s.time s.revmatch st.revSegs from by rw [he], if_pos hv]
    exact flatRev_snocRevPoint s.time s.revmatch h.revWF hl

theorem segLoop_flatRpm :
    ∀ (rest : List Sample) (prev : Option Sample) (st : SegState),
      Inv prev st →
      flatRpm (segLoop prev rest st).rpmSegs
        = flatRpm st.rpmSegs ++ rest.map (fun s => (s.time, s.rpm))
  | [], _, _, _ => by simp [segLoop]
  | s :: rest, prev, st, h => by
    rw [segLoop, segLoop_flatRpm rest (some s) (step prev s st) (inv_step h s),
      step_flatRpm h s]
    simp

theorem segLoop_flatRev :
    ∀ (rest : List Sample) (prev : Option Sample) (st : SegState),
      Inv prev st →
      flatRev (segLoop prev rest st).revSegs
        = flatRev st.revSegs
          ++ (rest.filter (fun s => decide (ValidRev s))).map
              (fun s => (s.time, s.revmatch, s.gear - 1))
  | [], _, _, _ => by simp [segLoop]
  | s :: rest, prev, st, h => by
    rw [segLoop, segLoop_flatRev rest (some s) (step prev s st) (inv_step h s),
      step_flatRev h s, List.filter_cons]
    by_cases hv : ValidRev s
    · simp [hv]
    · simp [hv]

theorem segLoop_elseHits :
    ∀ (rest : List Sample) (prev : Option Sample) (st : SegState),
      Inv prev st → (segLoop prev rest st).elseHits = st.elseHits
  | [], _, _, _ => by simp [segLoop]
  | s :: rest, prev, st, h => by
    rw [segLoop, segLoop_elseHits rest (some s) (step prev s st) (inv_step h s)]
    show st.elseHits + (if (stepRev prev s st.revSegs).2 then 1 else 0) = _
    rw [stepRev_no_else h s]
    simp

theorem segLoop_eq_spec :
    ∀ (rest : List Sample) (prev : Option Sample) (st : SegState),
      Inv prev st →
      (segLoop prev rest st).revSegs = specRevLoop prev rest st.revSegs
  | [], _, _, _ => by simp [segLoop, specRevLoop]
  | s :: rest, prev, st, h => by
    rw [segLoop, specRevLoop,
      segLoop_eq_spec rest (some s) (step prev s st) (inv_step h s)]
    congr 1
    exact stepRev_eq_spec h s

theorem segLoop_keys :
    ∀ (rest : List Sample) (prev : Option Sample) (st : SegState),
      Inv prev st →
      (segLoop prev rest st).rpmSegs.map RpmSeg.gear
        = st.rpmSegs.map RpmSeg.gear
          ++ (match prev with
              | none => collapseAdj (rest.map Sample.gear)
              | some p => newKeys p.gear (rest.map Sample.gear))
  | [], prev, st, _ => by
    cases prev <;> simp [segLoop, collapseAdj, newKeys]
  | s :: rest, prev, st, h => by
    rw [segLoop, segLoop_keys rest (some s) (step prev s st) (inv_step h s)]
    show (stepRpm prev s st.rpmSegs).map RpmSeg.gear ++ _ = _
    cases prev with
    | none =>
      simp only [stepRpm, List.map_append, List.map_cons, List.map_nil]
      rw [List.append_assoc]
      rfl
    | some p =>
      by_cases hg : s.gear = p.gear
      · simp only [stepRpm, if_pos hg, snocRpmPoint_map_gear, List.map_cons]
        rw [show newKeys p.gear (s.gear :: rest.map Sample.gear)
              = newKeys p.gear (rest.map Sample.gear) from by
            rw [newKeys, if_pos hg],
          show newKeys s.gear (rest.map Sample.gear)
              = newKeys p.gear (rest.map Sample.gear) from by rw [hg]]
      · simp only [stepRpm, if_neg hg, List.map_append, List.map_cons,
          List.map_nil, List.map_cons]
        rw [show newKeys p.gear (s.gear :: rest.map Sample.gear)
              = s.gear :: newKeys s.gear (rest.map Sample.gear) from by
            rw [newKeys, if_neg hg],
          List.append_assoc]
        rfl

theorem contains_eq_decide_mem (l : List ℤ) (g : ℤ) :
    l.contains g = decide (g ∈ l) := by
  by_cases h : g ∈ l
  · rw [decide_eq_true h]
    exact List.elem_iff.mpr h
  · rw [decide_eq_false h, ← Bool.not_eq_true]
    intro hc
    exact h (List.elem_iff.mp hc)

theorem gearChanges_eq_length_newKeys :
    ∀ (a : Sample) (rest : List Sample),
      gearChanges (a :: rest) = (newKeys a.gear (rest.map Sample.gear)).length
  | _, [] => rfl
  | a, b :: rest => by
    rw [gearChanges, gearChanges_eq_length_newKeys b rest]
    show _ + _ = (newKeys a.gear (b.gear :: rest.map Sample.gear)).length
    by_cases hg : b.gear = a.gear
    · rw [newKeys, if_pos hg, if_neg (by simp [hg]), hg]
      simp
    · rw [newKeys, if_neg hg, if_pos hg]
      simp [Nat.add_comm]

end RpmRevMatch

namespace ConfigLoader

/-- Decimal digits of a stripped token, most significant first. -/
def digitsToNat (ds : List Char) : ℕ :=
  ds.foldl (fun a c => a * 10 + (c.toNat - 48)) 0

/-- Python `int(s)` on an already-stripped string: an optional sign followed
by at least one decimal digit, `ValueError` (here `none`) otherwise.
(Underscore digit separators and non-decimal bases are not modelled; the
config file holds plain RPM numbers.) -/
def parseIntStr (s : String) : Option ℤ :=
  match s.data with
  | [] => none
  | '+' :: ds =>
    if ds ≠ [] ∧ ds.all Char.isDigit then some (digitsToNat ds : ℕ) else none
  | '-' :: ds =>
    if ds ≠ [] ∧ ds.all Char.isDigit then some (-(digitsToNat ds : ℕ) : ℤ)
    else none
  | ds => if ds.all Char.isDigit then some (digitsToNat ds : ℕ) else none

/-- The whitespace characters removed by Python `str.strip()`. -/
def pyWhitespace (c : Char) : Bool :=
  c == ' ' || c == '\t' || c == '\n' || c == '\r' || c == '\x0b' || c == '\x0c'

/-- Python `line.strip()`: drop leading and trailing whitespace. -/
def pyStrip (s : String) : String :=
  ⟨((s.data.dropWhile pyWhitespace).reverse.dropWhile pyWhitespace).reverse⟩

/-- `[line.strip() for line in lines if ',' not in line.strip() and line.strip()]`:
the stripped non-blank lines containing no comma. -/
def configLines (lines : List String) : List String :=
  (lines.map pyStrip).filter (fun l => !(l.data.contains ',') && l ≠ "")

/-- Outcome of the config-reading block: the two optional bounds and the
message printed. -/
structure ConfigResult where
  minRPM : Option ℤ
  maxRPM : Option ℤ
  message : String
  deriving Repr, DecidableEq

/-- Message of the success path. -/
def msgFound (a b : ℤ) : String :=
  "Using RPM limits from config.txt: " ++ toString a ++ " - " ++ toString b

/-- Message of the `FileNotFoundError` path. -/
def msgNotFound : String :=
  "Warning: config.txt not found, using auto-scale"

/-- Message of the "fewer than two valid lines" path. -/
def msgInsufficient : String :=
  "Warning: config.txt doesn\x27t have enough valid lines, using auto-scale"

/-- Message of the `ValueError` path. -/
def msgInvalid : String :=
  "Warning: Invalid RPM values in config.txt, using auto-scale"

/-- graph.py lines 6-28.  `file = none` models `FileNotFoundError`; otherwise
`file = some lines` is the result of `f.readlines()`.  A `ValueError` from
either `int(...)` call leaves both bounds unset.  (When the first `int` call
already fails, Python never evaluates the second; the observable outcome -
both bounds `None`, the `ValueError` message - is identical.) -/
def loadConfig (file : Option (List String)) : ConfigResult :=
  match file with
  | none => { minRPM := none, maxRPM := none, message := msgNotFound }
  | some lines =>
    match configLines lines with
    | a :: b :: _ =>
      match parseIntStr a, parseIntStr b with
      | some x, some y =>
        { minRPM := some x, maxRPM := some y, message := msgFound x y }
      | _, _ => { minRPM := none, maxRPM := none, message := msgInvalid }
    | _ => { minRPM := none, maxRPM := none, message := msgInsufficient }

end ConfigLoader

namespace RatioAnalysis

/-- Constructor-wise decidable equality for `Except` results. -/
instance {ε α : Type} [DecidableEq ε] [DecidableEq α] :
    DecidableEq (Except ε α) := fun a b =>
  match a, b with
  | .error e, .error f =>
    if h : e = f then isTrue (by rw [h]) else isFalse (fun hc => h (by injection hc))
  | .ok x, .ok y =>
    if h : x = y then isTrue (by rw [h]) else isFalse (fun hc => h (by injection hc))
  | .error _, .ok _ => isFalse (fun hc => by injection hc)
  | .ok _, .error _ => isFalse (fun hc => by injection hc)

/-- One row of `output copy.csv` after `drop(['RevMatch', 'Time'], axis=1)`:
columns `RPM`, `CurrentGear`, `MPH`. -/
structure RSample where
  rpm : ℚ
  gear : ℤ
  mph : ℚ
  deriving Repr, DecidableEq

/-- `finaldrive = 61/15`. -/
def finaldrive : ℚ := 61 / 15

/-- `wheelCircumference = 74.38402`. -/
def wheelCircumference : ℚ := 74.38402

/-- The `gears` dict of innefficiency.py; `none` models a `KeyError`. -/
def gearRatio (g : ℤ) : Option ℚ :=
  if g = 1 then some (37 / 11)
  else if g = 2 then some (41 / 22)
  else if g = 3 then some (37 / 28)
  else if g = 4 then some (35 / 34)
  else if g = 5 then some (32 / 39)
  else none

/-- The `apply` lambda of line 42:
`(1056 * row['MPH'] * finaldrive * gears[row['CurrentGear']]) / wheelCircumference`;
a gear absent from the dict raises `KeyError`. -/
def theoreticalRevMatch (r : RSample) : Except String ℚ :=
  match gearRatio r.gear with
  | some gr => .ok (1056 * r.mph * finaldrive * gr / wheelCircumference)
  | none => .error ("KeyError: " ++ toString r.gear)

/-- Row-by-row traversal that stops at the first failing row, as a pandas
`apply` (and the `for` loop) does. -/
def mapME (f : α → Except String β) : List α → Except String (List β)
  | [] => .ok []
  | a :: l =>
    match f a with
    | .error e => .error e
    | .ok b =>
      match mapME f l with
      | .error e => .error e
      | .ok bs => .ok (b :: bs)

/-- Number of groups of `df.groupby('CurrentGear')`: the number of distinct
gear values. -/
def nGroups (rows : List RSample) : ℕ :=
  ((rows.map RSample.gear).dedup).length

/-- `actual.get_group(k)`: the rows whose gear equals `k`, `KeyError` when no
row has that gear. -/
def getGroup (rows : List RSample) (k : ℤ) : Except String (List RSample) :=
  match rows.filter (fun r => r.gear == k) with
  | [] => .error ("KeyError: " ++ toString k)
  | g => .ok g

/-- `g.sort_values(by='MPH', inplace=True)`. -/
def sortByMph (g : List RSample) : List RSample :=
  List.insertionSort (fun a b => a.mph ≤ b.mph) g

/-- Observable status of `np.polyfit(x, y, 1)`: it raises only when `x` is
empty (`TypeError: expected non-empty vector for x`); with fewer than two
distinct `x` values the degree-1 Vandermonde matrix is rank-deficient, so
numpy emits a `RankWarning` and still returns coefficients.  Only this status
is modelled; the coefficient values never influence the script's control
flow. -/
def polyfitDeg1RankWarning (xs : List ℚ) : Except String Bool :=
  if xs = [] then .error "polyfit: expected non-empty vector for x"
  else .ok (decide (xs.dedup.length < 2))

/-- What the loop body records for one rendered group: its gear key and
whether the degree-1 fit was rank-deficient (numpy `RankWarning`). -/
structure GroupRender where
  gear : ℤ
  rankWarning : Bool
  deriving Repr, DecidableEq

/-- The body of `for i in range(len(actual))` for group key `k = i + 1`:
fetch the group, sort it by MPH, fit `MPH` against `RPM` with
`np.polyfit(g['RPM'], g['MPH'], 1)` and plot.  An `ok` result means the
group rendered (the fit was computed); there is no branch that skips the
fit. -/
def processGroup (rows : List RSample) (k : ℤ) : Except String GroupRender :=
  match getGroup rows k with
  | .error e => .error e
  | .ok g =>
    match polyfitDeg1RankWarning ((sortByMph g).map RSample.rpm) with
    | .error e => .error e
    | .ok w => .ok { gear := k, rankWarning := w }

/-- The whole script after loading: the `apply` computing the theoretical
RevMatch for every row (first possible `KeyError`), then the per-group loop
`for i in range(len(actual)): g = actual.get_group(i+1); ...`. -/
def ratioAnalysis (rows : List RSample) : Except String (List GroupRender) :=
  match mapME theoreticalRevMatch rows with
  | .error e => .error e
  | .ok _ =>
    mapME (fun i : ℕ => processGroup rows ((i : ℤ) + 1))
      (List.range (nGroups rows))

/-- A traversal fails as soon as some element fails. -/
theorem mapME_error_of_mem {α β : Type} (f : α → Except String β) :
    ∀ (l : List α) (a : α), a ∈ l → (∃ e, f a = .error e) →
      ∃ e, mapME f l = .error e
  | [], a, ha, _ => absurd ha (List.not_mem_nil a)
  | b :: l, a, ha, he => by
    rcases List.mem_cons.mp ha with rfl | ha
    · obtain ⟨e, hae⟩ := he
      exact ⟨e, by simp [mapME, hae]⟩
    · cases hb : f b with
      | error e => exact ⟨e, by simp [mapME, hb]⟩
      | ok v =>
        obtain ⟨e, he2⟩ := mapME_error_of_mem f l a ha he
        exact ⟨e, by simp [mapME, hb, he2]⟩

/-- A traversal whose elements all succeed returns the element results in
order. -/
theorem mapME_ok_of_forall {α β : Type} (f : α → Except String β) :
    ∀ l : List α, (∀ a ∈ l, ∃ b, f a = .ok b) →
      ∃ bs : List β, mapME f l = .ok bs ∧ bs.length = l.length ∧
        ∀ (i : ℕ) (hi : i < l.length) (hb : i < bs.length),
          f (l.get ⟨i, hi⟩) = .ok (bs.get ⟨i, hb⟩)
  | [], _ => ⟨[], rfl, rfl, fun i hi => absurd hi (Nat.not_lt_zero i)⟩
  | a :: l, h => by
    obtain ⟨b, hb⟩ := h a (List.mem_cons_self a l)
    obtain ⟨bs, hbs, hlen, hget⟩ :=
      mapME_ok_of_forall f l (fun x hx => h x (List.mem_cons_of_mem a hx))
    refine ⟨b :: bs, by simp [mapME, hb, hbs], by simp [hlen], ?_⟩
    intro i hi hbnd
    cases i with
    | zero => simpa using hb
    | succ j => exact hget j (by simpa using hi) (by simpa using hbnd)

end RatioAnalysis

/-! ## The claims -/

namespace Claims

open RpmRevMatch ConfigLoader RatioAnalysis

/-- The RevMatch boundary test input of the spec:
`(gear, revmatch) = [(2,5000),(2,5200),(3,-1),(3,6000)]`. -/
def ex3Samples : List Sample :=
  [⟨0, 0, 2, 5000⟩, ⟨1, 0, 2, 5200⟩, ⟨2, 0, 3, -1⟩, ⟨3, 0, 3, 6000⟩]

/-- The RPM boundary test input of the spec: gears `[1,1,2,2,1]`. -/
def ex4Samples : List Sample :=
  [⟨0, 10, 1, -1⟩, ⟨1, 11, 1, -1⟩, ⟨2, 12, 2, -1⟩, ⟨3, 13, 2, -1⟩,
   ⟨4, 14, 1, -1⟩]

/-- A ratio-analysis input whose only row is in gear 6, absent from the
`gears` ratio table. -/
def missingGearRows : List RSample := [⟨3000, 6, 10⟩]

/-- A ratio-analysis input with gears 1, 2 and 4 present but a gap at
gear 3. -/
def gapRows : List RSample := [⟨3000, 1, 10⟩, ⟨2500, 2, 20⟩, ⟨2200, 4, 40⟩]

/-- A ratio-analysis input whose gear-1 group has a single distinct RPM
value and whose gear-2 group has two. -/
def ex6Rows : List RSample :=
  [⟨3000, 1, 10⟩, ⟨3000, 1, 12⟩, ⟨2000, 2, 20⟩, ⟨2500, 2, 25⟩]

/-- C1: For every sample sequence, concatenating the point lists of all RPM
segments in segment order reproduces the original (time, rpm) sequence
exactly - no sample is dropped and none is duplicated - so every sample
belongs to exactly one RPM segment. -/
theorem rpm_segments_partition (samples : List Sample) :
    flatRpm (segmentSamples samples).rpmSegs
      = samples.map (fun s => (s.time, s.rpm)) := by
  simpa [segmentSamples, flatRpm_nil] using
    segLoop_flatRpm samples none
      { rpmSegs := [], revSegs := [], elseHits := 0 } inv_init

/-- C2: For every sample sequence, the key-tagged points of all RevMatch
segments, in segment order, are exactly the `(time, revmatch, gear - 1)`
triples of the samples satisfying `gear > 1 AND revmatch != -1`, in input
order.  Hence every point of every RevMatch segment comes from a valid
sample, each valid sample contributes exactly one point (so it belongs to at
most one RevMatch segment), the segment it joins carries key `gear - 1`, and
no invalid sample appears in any RevMatch segment. -/
theorem revmatch_segments_valid_samples (samples : List Sample) :
    flatRev (segmentSamples samples).revSegs
      = (samples.filter (fun s => decide (ValidRev s))).map
          (fun s => (s.time, s.revmatch, s.gear - 1)) := by
  simpa [segmentSamples, flatRev_nil] using
    segLoop_flatRev samples none
      { rpmSegs := [], revSegs := [], elseHits := 0 } inv_init

/-- C3: For every sample sequence the RevMatch segmentation behaves exactly
as the spec's opening rule describes (`revSegmentsSpec`): for a valid sample
a new segment keyed `gear - 1` is opened exactly when no RevMatch segment
exists yet, or the previous sample's gear differs, or the previous sample's
revmatch equals `-1`; otherwise the point is appended to the last open
segment.  On the boundary test `(gear, revmatch) =
[(2,5000),(2,5200),(3,-1),(3,6000)]` this yields exactly two RevMatch
segments: key 1 with the first two points and key 2 with the last point. -/
theorem revmatch_boundary_rule :
    (∀ samples : List Sample,
        (segmentSamples samples).revSegs = revSegmentsSpec samples) ∧
    (segmentSamples ex3Samples).revSegs
      = [⟨[0, 1], [5000, 5200], 1⟩, ⟨[3], [6000], 2⟩] := by
  constructor
  · intro samples
    simpa [segmentSamples, revSegmentsSpec] using
      segLoop_eq_spec samples none
        { rpmSegs := [], revSegs := [], elseHits := 0 } inv_init
  · decide

/-- C4: For every non-empty sample sequence the number of RPM segments
equals the number of gear-change events plus one; on gears `[1,1,2,2,1]`
the result is exactly three RPM segments with keys `[1,2,1]` and lengths
`[2,2,1]`. -/
theorem rpm_segment_count :
    (∀ samples : List Sample, samples ≠ [] →
        (segmentSamples samples).rpmSegs.length = gearChanges samples + 1) ∧
    (segmentSamples ex4Samples).rpmSegs
      = [⟨[0, 1], [10, 11], 1⟩, ⟨[2, 3], [12, 13], 2⟩, ⟨[4], [14], 1⟩] := by
  constructor
  · intro samples hne
    obtain ⟨a, rest, rfl⟩ := List.exists_cons_of_ne_nil hne
    have hkeys : (segmentSamples (a :: rest)).rpmSegs.map RpmSeg.gear
        = collapseAdj ((a :: rest).map Sample.gear) := by
      simpa [segmentSamples] using
        segLoop_keys (a :: rest) none
          { rpmSegs := [], revSegs := [], elseHits := 0 } inv_init
    have hlen : (segmentSamples (a :: rest)).rpmSegs.length
        = (collapseAdj ((a :: rest).map Sample.gear)).length := by
      rw [← hkeys, List.length_map]
    rw [hlen, List.map_cons, collapseAdj, List.length_cons,
      ← gearChanges_eq_length_newKeys]
  · decide

/-- Witness for the non-emptiness hypothesis of `rpm_segment_count`. -/
theorem rpm_segment_count_witness :
    ex4Samples ≠ [] ∧
    (segmentSamples ex4Samples).rpmSegs.length = gearChanges ex4Samples + 1 :=
  ⟨by decide, rpm_segment_count.1 ex4Samples (by decide)⟩

/-- C5: The defensive re-split branch of the RevMatch segmentation (the
final `else` that opens a segment for a differing key) is dead code: the
ghost counter `elseHits`, incremented exactly when that branch executes, is
zero for every input sequence. -/
theorem revmatch_else_branch_dead (samples : List Sample) :
    (segmentSamples samples).elseHits = 0 := by
  simpa [segmentSamples] using
    segLoop_elseHits samples none
      { rpmSegs := [], revSegs := [], elseHits := 0 } inv_init

/-- C10: For an empty input sample sequence the Segmenter produces an empty
RPM segment list and an empty RevMatch segment list. -/
theorem empty_input_empty_segments :
    (segmentSamples []).rpmSegs = [] ∧ (segmentSamples []).revSegs = [] :=
  ⟨rfl, rfl⟩

/-- C9: The legend has exactly one entry per distinct gear key appearing
across the two segment lists (`allGears` is duplicate-free and a gear is in
it iff it keys an RPM or a RevMatch segment), entries are ordered by
ascending key, each is labeled `"Gear {key}"`, and an entry bundles a dashed
sample iff its gear appears as a RevMatch segment key. -/
theorem legend_one_entry_per_gear (st : SegState) :
    List.Sorted (· ≤ ·) (allGears st) ∧ (allGears st).Nodup ∧
    (∀ g : ℤ, g ∈ allGears st ↔
      (g ∈ st.rpmSegs.map RpmSeg.gear ∨ g ∈ st.revSegs.map RevSeg.gear)) ∧
    legendElements st
      = (allGears st).map
          (fun g =>
            ("Gear " ++ toString g,
              decide (g ∈ st.revSegs.map RevSeg.gear))) := by
  refine ⟨List.sorted_insertionSort _ _, ?_, ?_, ?_⟩
  · exact (List.perm_insertionSort _ _).nodup_iff.mpr (List.nodup_dedup _)
  · intro g
    rw [allGears, (List.perm_insertionSort _ _).mem_iff, List.mem_dedup,
      List.mem_append]
  · rw [legendElements]
    congr 1
    funext g
    rw [contains_eq_decide_mem]

/-- C8: If the config file exists and its first two non-comma-containing
non-blank lines parse as integers they become `(minRPM, maxRPM)` with the
success message; each of the three failure causes - missing file, fewer than
two such lines, non-integer content - leaves both bounds unset with its own
distinct warning message; and no outcome sets only one of the two bounds. -/
theorem config_loading_cases :
    (∀ (lines : List String) (a b : String) (rest : List String) (x y : ℤ),
        configLines lines = a :: b :: rest →
        parseIntStr a = some x → parseIntStr b = some y →
        loadConfig (some lines) = ⟨some x, some y, msgFound x y⟩) ∧
    loadConfig none = ⟨none, none, msgNotFound⟩ ∧
    (∀ lines : List String, (configLines lines).length < 2 →
        loadConfig (some lines) = ⟨none, none, msgInsufficient⟩) ∧
    (∀ (lines : List String) (a b : String) (rest : List String),
        configLines lines = a :: b :: rest →
        (parseIntStr a = none ∨ parseIntStr b = none) →
        loadConfig (some lines) = ⟨none, none, msgInvalid⟩) ∧
    (msgNotFound ≠ msgInsufficient ∧ msgNotFound ≠ msgInvalid ∧
      msgInsufficient ≠ msgInvalid) ∧
    (∀ file : Option (List String),
        (loadConfig file).minRPM.isSome ↔ (loadConfig file).maxRPM.isSome) := by
  refine ⟨?_, rfl, ?_, ?_, by decide, ?_⟩
  · intro lines a b rest x y hc hx hy
    simp [loadConfig, hc, hx, hy]
  · intro lines h2
    cases hc : configLines lines with
    | nil => simp [loadConfig, hc]
    | cons a tail =>
      cases tail with
      | nil => simp [loadConfig, hc]
      | cons b rest =>
        rw [hc] at h2
        simp at h2
        omega
  · intro lines a b rest hc hnone
    cases hpa : parseIntStr a with
    | none => simp [loadConfig, hc, hpa]
    | some x =>
      cases hpb : parseIntStr b with
      | none => simp [loadConfig, hc, hpa, hpb]
      | some y =>
        rw [hpa, hpb] at hnone
        rcases hnone with h | h <;> exact absurd h (by simp)
  · intro file
    cases file with
    | none => simp [loadConfig]
    | some lines =>
      cases hc : configLines lines with
      | nil => simp [loadConfig, hc]
      | cons a tail =>
        cases tail with
        | nil => simp [loadConfig, hc]
        | cons b rest =>
          cases hpa : parseIntStr a with
          | none => simp [loadConfig, hc, hpa]
          | some x =>
            cases hpb : parseIntStr b with
            | none => simp [loadConfig, hc, hpa, hpb]
            | some y => simp [loadConfig, hc, hpa, hpb]

/-- Witness for the hypotheses of `config_loading_cases`: a concrete config
file with two valid integer lines. -/
theorem config_loading_cases_witness :
    configLines ["3000", "7000"] = ["3000", "7000"] ∧
    parseIntStr "3000" = some 3000 ∧ parseIntStr "7000" = some 7000 ∧
    (configLines ["3000"]).length < 2 ∧
    loadConfig (some ["3000", "7000"])
      = ⟨some 3000, some 7000, msgFound 3000 7000⟩ ∧
    loadConfig (some ["3000"]) = ⟨none, none, msgInsufficient⟩ ∧
    loadConfig (some ["3000", "70x0"]) = ⟨none, none, msgInvalid⟩ :=
  ⟨by decide, by decide, by decide, by decide,
    config_loading_cases.1 ["3000", "7000"] "3000" "7000" [] 3000 7000
      (by decide) (by decide) (by decide),
    config_loading_cases.2.2.1 ["3000"] (by decide),
    config_loading_cases.2.2.2.1 ["3000", "70x0"] "3000" "70x0" []
      (by decide) (Or.inr (by decide))⟩

/-- C7: In the ratio analysis a gear value absent from the `gears` ratio
table makes the run stop with a lookup failure (no default is substituted),
and a gap in the dense gear numbering `1..N` makes the per-gear
`get_group(i+1)` access fail rather than be skipped: on `gapRows` (gears
1, 2, 4) the run fails with `KeyError: 3`. -/
theorem gear_lookup_failure_fatal :
    (∀ rows : List RSample,
        (∃ r ∈ rows, gearRatio r.gear = none) →
        ∃ e, ratioAnalysis rows = .error e) ∧
    ratioAnalysis gapRows = .error ("KeyError: " ++ toString (3 : ℤ)) := by
  constructor
  · rintro rows ⟨r, hr, hnone⟩
    obtain ⟨e, he⟩ := mapME_error_of_mem theoreticalRevMatch rows r hr
      ⟨"KeyError: " ++ toString r.gear, by simp [theoreticalRevMatch, hnone]⟩
    exact ⟨e, by simp [ratioAnalysis, he]⟩
  · decide

/-- Witness for the hypothesis of `gear_lookup_failure_fatal`: a row in
gear 6, which the ratio table does not contain. -/
theorem gear_lookup_failure_fatal_witness :
    (∃ r ∈ missingGearRows, gearRatio r.gear = none) ∧
    ∃ e, ratioAnalysis missingGearRows = .error e :=
  ⟨by decide, gear_lookup_failure_fatal.1 missingGearRows (by decide)⟩

/-- C6 counterexample: the claim says a gear group with fewer than 2
distinct RPM values is reported as a per-group skip with the degree-1 fit
skipped.  On `ex6Rows` the gear-1 group has exactly one distinct RPM value,
yet `processGroup` returns a rendered entry for it with the fit computed
(`rankWarning = true` models numpy computing a rank-deficient fit under a
`RankWarning`), and the whole run returns an entry for every group: nothing
is skipped and no per-group skip is reported. -/
theorem degenerate_group_not_skipped :
    ((ex6Rows.filter (fun r => r.gear == (1 : ℤ))).map RSample.rpm).dedup.length
      = 1 ∧
    processGroup ex6Rows 1 = .ok ⟨1, true⟩ ∧
    ratioAnalysis ex6Rows = .ok [⟨1, true⟩, ⟨2, false⟩] := by decide

/-- C6 amended: a gear group with fewer than 2 distinct RPM values is not
skipped and not reported; the degree-1 fit is still attempted for every
group (numpy emits a RankWarning instead of raising) and the run completes
with one rendered entry per group.  Stated for every input whose gears are
all in the ratio table and densely numbered `1..N`. -/
theorem degenerate_group_still_rendered :
    ∀ rows : List RSample,
      (∀ r ∈ rows, (gearRatio r.gear).isSome) →
      (∀ i : ℕ, i < nGroups rows → ∃ r ∈ rows, r.gear = (i : ℤ) + 1) →
      ∃ renders : List GroupRender,
        ratioAnalysis rows = .ok renders ∧
        renders.length = nGroups rows ∧
        ∀ i : ℕ, i < nGroups rows →
          ∃ w : Bool, renders[i]? = some ⟨(i : ℤ) + 1, w⟩ := by
  intro rows hdom hdense
  have happly : ∀ a ∈ rows, ∃ b, theoreticalRevMatch a = .ok b := by
    intro a ha
    obtain ⟨gr, hgr⟩ := Option.isSome_iff_exists.mp (hdom a ha)
    exact ⟨1056 * a.mph * finaldrive * gr / wheelCircumference,
      by simp [theoreticalRevMatch, hgr]⟩
  obtain ⟨qs, hqs, -, -⟩ := mapME_ok_of_forall theoreticalRevMatch rows happly
  have hgrp : ∀ i : ℕ, i ∈ List.range (nGroups rows) →
      ∃ w : Bool, processGroup rows ((i : ℤ) + 1)
        = .ok ⟨(i : ℤ) + 1, w⟩ := by
    intro i hi
    rw [List.mem_range] at hi
    obtain ⟨r, hr, hgear⟩ := hdense i hi
    have hmem : r ∈ rows.filter (fun x => x.gear == ((i : ℤ) + 1)) :=
      List.mem_filter.mpr ⟨hr, by simp [hgear]⟩
    cases hfil : rows.filter (fun x => x.gear == ((i : ℤ) + 1)) with
    | nil => rw [hfil] at hmem; exact absurd hmem (List.not_mem_nil r)
    | cons g0 gs =>
      have hsne : sortByMph (g0 :: gs) ≠ [] := by
        intro h0
        have hl := (List.perm_insertionSort
          (fun a b => a.mph ≤ b.mph) (g0 :: gs)).length_eq
        rw [show List.insertionSort (fun a b => a.mph ≤ b.mph) (g0 :: gs)
              = sortByMph (g0 :: gs) from rfl, h0] at hl
        simp at hl
      have hmapne : (sortByMph (g0 :: gs)).map RSample.rpm ≠ [] := by
        simpa using hsne
      exact ⟨decide (((sortByMph (g0 :: gs)).map RSample.rpm).dedup.length < 2),
        by simp [processGroup, getGroup, hfil, polyfitDeg1RankWarning, hmapne]⟩
  have hgrp' : ∀ i ∈ List.range (nGroups rows),
      ∃ b, (fun i : ℕ => processGroup rows ((i : ℤ) + 1)) i = .ok b := by
    intro i hi
    obtain ⟨w, hw⟩ := hgrp i hi
    exact ⟨_, hw⟩
  obtain ⟨renders, hrs, hlen, hget⟩ :=
    mapME_ok_of_forall (fun i : ℕ => processGroup rows ((i : ℤ) + 1))
      (List.range (nGroups rows)) hgrp'
  refine ⟨renders, ?_, ?_, ?_⟩
  · simp [ratioAnalysis, hqs, hrs]
  · rw [hlen, List.length_range]
  · intro i hi
    obtain ⟨w, hw⟩ := hgrp i (List.mem_range.mpr hi)
    have hi' : i < (List.range (nGroups rows)).length := by simpa using hi
    have hb : i < renders.length := by
      rw [hlen]
      exact hi'
    have hv := hget i hi' hb
    simp only [List.get_eq_getElem, List.getElem_range] at hv
    rw [hw] at hv
    refine ⟨w, ?_⟩
    rw [List.getElem?_eq_getElem hb]
    injection hv with hv
    rw [← hv]

/-- Witness for the hypotheses of `degenerate_group_still_rendered`:
`ex6Rows` has gears 1 and 2 only, and its gear-1 group is degenerate. -/
theorem degenerate_group_still_rendered_witness :
    (∀ r ∈ ex6Rows, (gearRatio r.gear).isSome) ∧
    (∀ i : ℕ, i < nGroups ex6Rows → ∃ r ∈ ex6Rows, r.gear = (i : ℤ) + 1) ∧
    ∃ renders : List GroupRender,
      ratioAnalysis ex6Rows = .ok renders ∧
      renders.length = nGroups ex6Rows ∧
      ∀ i : ℕ, i < nGroups ex6Rows →
        ∃ w : Bool, renders[i]? = some ⟨(i : ℤ) + 1, w⟩ :=
  ⟨by decide, by decide,
    degenerate_group_still_rendered ex6Rows (by decide) (by decide)⟩

end Claims
